import Mathlib

/-!
Verification of the `MeshOpts` display-options class
(`fsleyes/displaycontext/meshopts.py`).

The development shallowly embeds the parts of `MeshOpts` that the checked
properties are about:

* coordinate-space normalisation and 4x4 affine transform composition
  (`normaliseSpace`, `transformCoords`, `getTransform`);
* the bounds recomputation performed by `__updateBounds` and the listener
  callbacks `__refImageChanged`, `__coordSpaceChanged`, `__transformChanged`;
* the overlay-list callback `__overlayListChanged`;
* vertex/modulate data loading (`__vdataChanged`) and the accessors
  `getDataRange`, `getModulateRange`, `getVertexData`, `vertexDataLen`,
  and `addVertexData` / `addVertexDataOptions`.

Matrices are `Matrix (Fin 4) (Fin 4) ℚ` (numpy float arrays are modelled
with exact rationals), numpy data arrays are flat lists of rationals
together with a shape, and Python exceptions are modelled with
`Except` / `Option`.  External collaborators (the reference `fsl` image,
the `NiftiOpts` instance obtained from the display context, the `Mesh`
overlay and its vertex-data loader) are abstract record fields, so all
theorems are universally quantified over their behaviour.
-/

namespace MeshOptsVerify

/-- A 4x4 affine matrix, as handled by `fsl.transform.affine`. -/
abbrev Mat4 := Matrix (Fin 4) (Fin 4) ℚ

/-- A 3-D coordinate (one row of a numpy coordinate array). -/
abbrev Vec3 := Fin 3 → ℚ

/-- Embedding of `fsl.transform.affine.transform` for a single 3-D point:
the upper-left 3x3 part of the matrix is applied, then the first three
entries of the last column are added.  The bottom matrix row is ignored,
exactly as in the library routine. -/
def affineTransform (x : Mat4) (v : Vec3) : Vec3 :=
  fun i => (∑ j : Fin 3, x i.castSucc j.castSucc * v j) + x i.castSucc 3

/-- Embedding of `fsl.transform.affine.concat` applied to two matrices:
`numpy` matrix product, left to right. -/
def concat2 (a b : Mat4) : Mat4 := a * b

/-- Embedding of `fsl.transform.affine.concat` applied to three matrices
(the product is folded from the left, as `functools.reduce(np.dot, ...)`
does). -/
def concat3 (a b c : Mat4) : Mat4 := a * b * c

/-- Embedding of `fsl.transform.affine.invert`: the matrix inverse,
written with the adjugate so that it is executable. -/
def invert (m : Mat4) : Mat4 := m.det⁻¹ • m.adjugate

/-- The reference image together with the objects `MeshOpts` derives from
it.  The fields bundle the external collaborators used by
`MeshOpts.transformCoords` / `MeshOpts.getTransform`:

* `getAffine from to` is `refImage.getAffine(from, to)` of the
  `fsl.data.image.Nifti` instance;
* `voxToSurfMat` is `fsl.data.mghimage.voxToSurfMat(refImage)`;
* `optsGetTransform from to` is
  `displayCtx.getOpts(refImage).getTransform(from, to)`, i.e. the
  `NiftiOpts` transform of the reference image.

All three are opaque to this module; every theorem holds for an arbitrary
assignment of these fields. -/
structure RefImage where
  getAffine : String → String → Mat4
  voxToSurfMat : Mat4
  optsGetTransform : String → String → Mat4

/-- Modelled from the spec: `NiftiOpts.transformCoords` of the reference
image is part of this repository but outside the extracted source.  Per
the spec it is the route "through the reference image's transformCoords"
with pre/post-composition: it applies the reference image's
`NiftiOpts.getTransform(from_, to)` matrix, first pre-composed with the
optional `pre` matrix and then post-composed with the optional `post`
matrix, to the coordinates. -/
def niftiTransformCoords (ref : RefImage) (coords : Vec3)
    (from_ to_ : String) (pre post : Option Mat4) : Vec3 :=
  let xform := ref.optsGetTransform from_ to_
  let xform := match pre with
    | some p => concat2 xform p
    | none => xform
  let xform := match post with
    | some p => concat2 p xform
    | none => xform
  affineTransform xform coords

/-- The valid space names accepted by `MeshOpts.normaliseSpace`. -/
def validSpaces : List String := ["world", "display", "mesh", "voxel", "id"]

/-- The choices of the `coordSpace` property. -/
def coordSpaceChoices : List String :=
  ["affine", "pixdim", "pixdim-flip", "id", "torig"]

/-- The state of a `MeshOpts` instance needed by the coordinate-transform
and bounds machinery.  `overlayBounds` is `self.overlay.bounds` (the lo
and hi corners of the mesh's native bounding box), `bounds` is the
`DisplayOpts.bounds` property value, and `oldRefImage` is the private
`__oldRefImage` bookkeeping attribute. -/
structure TState where
  refImage : Option RefImage
  coordSpace : String
  overlayBounds : Vec3 × Vec3
  oldRefImage : Option RefImage
  bounds : List ℚ

/-- Embedding of `MeshOpts.normaliseSpace`: raises `ValueError` (the
`Except.error` branch) for a space name outside `validSpaces`; otherwise
replaces `mesh` by the current `coordSpace`, and a resulting `torig` by
`affine`. -/
def normaliseSpace (coordSpace space : String) : Except String String :=
  if space ∉ validSpaces then
    .error ("Invalid space: " ++ space)
  else
    let space := if space = "mesh" then coordSpace else space
    let space := if space = "torig" then "affine" else space
    .ok space

/-- Embedding of `MeshOpts.transformCoords`.  The `from_`/`to` arguments
are normalised first (possibly raising `ValueError`); with no reference
image the coordinates are returned unchanged; with a reference image the
call is delegated to the reference image's `NiftiOpts.transformCoords`,
passing `pre`/`post` matrices when the mesh lives in the Freesurfer
`torig` space. -/
def transformCoords (s : TState) (coords : Vec3) (from_ to_ : String) :
    Except String Vec3 := do
  let nfrom_ ← normaliseSpace s.coordSpace from_
  let nto ← normaliseSpace s.coordSpace to_
  match s.refImage with
  | none => pure coords
  | some ref =>
    let pre : Option Mat4 :=
      if from_ = "mesh" ∧ s.coordSpace = "torig" then
        some (concat2 (ref.getAffine "voxel" "world") (invert ref.voxToSurfMat))
      else none
    let post : Option Mat4 :=
      if to_ = "mesh" ∧ s.coordSpace = "torig" then
        some (concat2 ref.voxToSurfMat (ref.getAffine "world" "voxel"))
      else none
    pure (niftiTransformCoords ref coords nfrom_ nto pre post)

/-- Embedding of `MeshOpts.getTransform`.  The `from_`/`to` arguments are
normalised first (possibly raising `ValueError`); with no reference image
the identity matrix (`np.eye(4)`) is returned; otherwise the reference
image's `NiftiOpts.getTransform` matrix is composed with the Freesurfer
surface matrices when the mesh lives in the `torig` space. -/
def getTransform (s : TState) (from_ to_ : String) : Except String Mat4 := do
  let nfrom_ ← normaliseSpace s.coordSpace from_
  let nto ← normaliseSpace s.coordSpace to_
  match s.refImage with
  | none => pure (1 : Mat4)
  | some ref =>
    let xform := ref.optsGetTransform nfrom_ nto
    let xform :=
      if from_ = "mesh" ∧ s.coordSpace = "torig" then
        concat3 xform (ref.getAffine "voxel" "world") (invert ref.voxToSurfMat)
      else xform
    let xform :=
      if to_ = "mesh" ∧ s.coordSpace = "torig" then
        concat3 ref.voxToSurfMat (ref.getAffine "world" "voxel") xform
      else xform
    pure xform

/-- The pure result of `normaliseSpace` on a valid space name. -/
def normPure (coordSpace space : String) : String :=
  let space := if space = "mesh" then coordSpace else space
  if space = "torig" then "affine" else space

theorem normaliseSpace_valid (cs sp : String) (h : sp ∈ validSpaces) :
    normaliseSpace cs sp = .ok (normPure cs sp) := by
  simp [normaliseSpace, normPure, h]

theorem normaliseSpace_invalid (cs sp : String) (h : sp ∉ validSpaces) :
    normaliseSpace cs sp = .error ("Invalid space: " ++ sp) := by
  simp [normaliseSpace, h]

theorem except_bind_ok {α β ε : Type} (a : α) (f : α → Except ε β) :
    (Except.ok a >>= f : Except ε β) = f a := rfl

theorem except_bind_error {α β ε : Type} (e : ε) (f : α → Except ε β) :
    (Except.error e >>= f : Except ε β) = .error e := rfl

/-- C3: `normaliseSpace` accepts exactly the five space names `world`,
`display`, `mesh`, `voxel` and `id`, and raises `ValueError` for every
other input, including `torig` passed directly; `transformCoords` and
`getTransform` propagate that error for an invalid `from_` or `to`
argument; `mesh` is replaced by the current `coordSpace` value, and a
resulting `torig` is replaced by `affine`. -/
theorem normaliseSpace_domain (s : TState) (sp : String) :
    (sp ∈ validSpaces ↔ ∃ r, normaliseSpace s.coordSpace sp = .ok r) ∧
    (sp ∉ validSpaces →
      normaliseSpace s.coordSpace sp = .error ("Invalid space: " ++ sp) ∧
      (∀ (coords : Vec3) (t : String),
        transformCoords s coords sp t = .error ("Invalid space: " ++ sp) ∧
        getTransform s sp t = .error ("Invalid space: " ++ sp)) ∧
      (∀ (coords : Vec3) (f : String), f ∈ validSpaces →
        transformCoords s coords f sp = .error ("Invalid space: " ++ sp) ∧
        getTransform s f sp = .error ("Invalid space: " ++ sp))) ∧
    normaliseSpace s.coordSpace "torig" = .error ("Invalid space: " ++ "torig") ∧
    normaliseSpace s.coordSpace "mesh" =
      .ok (if s.coordSpace = "torig" then "affine" else s.coordSpace) ∧
    (∀ x ∈ ["world", "display", "voxel", "id"],
      normaliseSpace s.coordSpace x = .ok x) := by
  refine ⟨?_, ?_, ?_, ?_, ?_⟩
  · constructor
    · intro h
      exact ⟨normPure s.coordSpace sp, normaliseSpace_valid _ _ h⟩
    · intro ⟨r, hr⟩
      by_contra hmem
      rw [normaliseSpace_invalid _ _ hmem] at hr
      exact Except.noConfusion hr
  · intro hmem
    have herr := normaliseSpace_invalid s.coordSpace sp hmem
    refine ⟨herr, ?_, ?_⟩
    · intro coords t
      constructor <;> simp [transformCoords, getTransform, herr, except_bind_error]
    · intro coords f hfv
      have hok := normaliseSpace_valid s.coordSpace f hfv
      constructor <;>
        simp [transformCoords, getTransform, hok, herr,
          except_bind_ok, except_bind_error]
  · exact normaliseSpace_invalid _ _ (by decide)
  · by_cases hcs : s.coordSpace = "torig" <;>
      simp [normaliseSpace, validSpaces, hcs]
  · intro x hx
    fin_cases hx <;> simp [normaliseSpace, validSpaces]

/-- A concrete `TState` with no reference image, used by witnesses. -/
def tstateEx : TState :=
  { refImage := none
    coordSpace := "pixdim-flip"
    overlayBounds := (fun _ => 0, fun _ => 1)
    oldRefImage := none
    bounds := [0, 1, 0, 1, 0, 1] }

/-- A concrete coordinate, used by witnesses. -/
def coordsEx : Vec3 := ![2, 3, 5]

theorem normaliseSpace_domain_witness :
    normaliseSpace tstateEx.coordSpace "affine" =
      .error ("Invalid space: " ++ "affine") :=
  ((normaliseSpace_domain tstateEx "affine").2.1 (by decide)).1

/-- C8: with no reference image, `getTransform` returns the identity
matrix and `transformCoords` returns the coordinates unchanged, for every
pair of valid space names. -/
theorem getTransform_noRefImage (s : TState) (h : s.refImage = none)
    (f t : String) (hf : f ∈ validSpaces) (ht : t ∈ validSpaces)
    (coords : Vec3) :
    getTransform s f t = .ok 1 ∧ transformCoords s coords f t = .ok coords := by
  have hnf := normaliseSpace_valid s.coordSpace f hf
  have hnt := normaliseSpace_valid s.coordSpace t ht
  constructor <;>
    simp [getTransform, transformCoords, hnf, hnt, h, except_bind_ok, pure,
      Except.pure]

theorem getTransform_noRefImage_witness :
    getTransform tstateEx "world" "display" = .ok 1 ∧
    transformCoords tstateEx coordsEx "world" "display" = .ok coordsEx :=
  getTransform_noRefImage tstateEx rfl "world" "display" (by decide) (by decide)
    coordsEx

/-- A concrete reference image with identity collaborator matrices, used
by witnesses. -/
def refImageEx : RefImage :=
  { getAffine := fun _ _ => 1
    voxToSurfMat := 1
    optsGetTransform := fun _ _ => 1 }

/-- A concrete `TState` whose mesh lives in the Freesurfer `torig` space,
used by witnesses. -/
def tstateTorigEx : TState :=
  { refImage := some refImageEx
    coordSpace := "torig"
    overlayBounds := (fun _ => 0, fun _ => 1)
    oldRefImage := none
    bounds := [0, 1, 0, 1, 0, 1] }

/-- C1: with a reference image and for every `coordSpace` choice
(including `torig`) and every pair of valid space names, the route through
the reference image's `NiftiOpts.transformCoords` (pre/post composition)
and the explicit matrix-concatenation route in `getTransform` compute the
same transformation of the coordinates. -/
theorem transformCoords_refines_getTransform (s : TState) (ref : RefImage)
    (h : s.refImage = some ref) (hcs : s.coordSpace ∈ coordSpaceChoices)
    (f t : String) (hf : f ∈ validSpaces) (ht : t ∈ validSpaces)
    (coords : Vec3) :
    transformCoords s coords f t =
      (getTransform s f t).map (fun x => affineTransform x coords) := by
  have hnf := normaliseSpace_valid s.coordSpace f hf
  have hnt := normaliseSpace_valid s.coordSpace t ht
  simp only [transformCoords, getTransform, h, hnf, hnt, except_bind_ok]
  by_cases h1 : f = "mesh" ∧ s.coordSpace = "torig" <;>
    by_cases h2 : t = "mesh" ∧ s.coordSpace = "torig"
  · simp [niftiTransformCoords, concat2, concat3, h1, h2, Except.map,
      pure, Except.pure, mul_assoc]
  · have h2' : ¬t = "mesh" := fun hteq => h2 ⟨hteq, h1.2⟩
    simp [niftiTransformCoords, concat2, concat3, h1, h2', Except.map,
      pure, Except.pure, mul_assoc]
  · have h1' : ¬f = "mesh" := fun hfeq => h1 ⟨hfeq, h2.2⟩
    simp [niftiTransformCoords, concat2, concat3, h1', h2, Except.map,
      pure, Except.pure, mul_assoc]
  · simp [niftiTransformCoords, concat2, concat3, h1, h2, Except.map,
      pure, Except.pure, mul_assoc]

theorem transformCoords_refines_getTransform_witness :
    transformCoords tstateTorigEx coordsEx "mesh" "world" =
      (getTransform tstateTorigEx "mesh" "world").map
        (fun x => affineTransform x coordsEx) :=
  transformCoords_refines_getTransform tstateTorigEx refImageEx rfl
    (by decide) "mesh" "world" (by decide) (by decide) coordsEx

/-- Minimum of a numpy array modelled as a list (`np.min` / the head of
`np.sort`); `0` for the empty array, which never occurs in the embedded
code paths. -/
def listMin : List ℚ → ℚ
  | [] => 0
  | x :: xs => xs.foldl min x

/-- Maximum of a numpy array modelled as a list (`np.max`). -/
def listMax : List ℚ → ℚ
  | [] => 0
  | x :: xs => xs.foldl max x

theorem foldl_min_le_init (xs : List ℚ) (x : ℚ) : xs.foldl min x ≤ x := by
  induction xs generalizing x with
  | nil => exact le_refl x
  | cons a as ih =>
    exact le_trans (ih (min x a)) (min_le_left x a)

theorem foldl_min_le_mem (xs : List ℚ) (x : ℚ) :
    ∀ y ∈ xs, xs.foldl min x ≤ y := by
  induction xs generalizing x with
  | nil => intro y hy; exact absurd hy (List.not_mem_nil y)
  | cons a as ih =>
    intro y hy
    rcases List.mem_cons.mp hy with rfl | hy2
    · exact le_trans (foldl_min_le_init as (min x y)) (min_le_right x y)
    · exact ih (min x a) y hy2

theorem foldl_min_mem (xs : List ℚ) (x : ℚ) :
    xs.foldl min x = x ∨ xs.foldl min x ∈ xs := by
  induction xs generalizing x with
  | nil => exact Or.inl rfl
  | cons a as ih =>
    rcases ih (min x a) with heq | hmem
    · rcases min_choice x a with hx | ha
      · exact Or.inl (heq.trans hx)
      · exact Or.inr (List.mem_cons.mpr (Or.inl (heq.trans ha)))
    · exact Or.inr (List.mem_cons.mpr (Or.inr hmem))

theorem foldl_max_le_init (xs : List ℚ) (x : ℚ) : x ≤ xs.foldl max x := by
  induction xs generalizing x with
  | nil => exact le_refl x
  | cons a as ih =>
    exact le_trans (le_max_left x a) (ih (max x a))

theorem foldl_max_le_mem (xs : List ℚ) (x : ℚ) :
    ∀ y ∈ xs, y ≤ xs.foldl max x := by
  induction xs generalizing x with
  | nil => intro y hy; exact absurd hy (List.not_mem_nil y)
  | cons a as ih =>
    intro y hy
    rcases List.mem_cons.mp hy with rfl | hy2
    · exact le_trans (le_max_right x y) (foldl_max_le_init as (max x y))
    · exact ih (max x a) y hy2

theorem foldl_max_mem (xs : List ℚ) (x : ℚ) :
    xs.foldl max x = x ∨ xs.foldl max x ∈ xs := by
  induction xs generalizing x with
  | nil => exact Or.inl rfl
  | cons a as ih =>
    rcases ih (max x a) with heq | hmem
    · rcases max_choice x a with hx | ha
      · exact Or.inl (heq.trans hx)
      · exact Or.inr (List.mem_cons.mpr (Or.inl (heq.trans ha)))
    · exact Or.inr (List.mem_cons.mpr (Or.inr hmem))

theorem listMin_isLeast (l : List ℚ) (h : l ≠ []) :
    IsLeast {q | q ∈ l} (listMin l) := by
  match l with
  | [] => exact absurd rfl h
  | x :: xs =>
    constructor
    · rcases foldl_min_mem xs x with heq | hmem
      · simpa [listMin, heq] using List.mem_cons_self x xs
      · simpa [listMin] using List.mem_cons_of_mem x hmem
    · intro y hy
      rcases List.mem_cons.mp hy with rfl | hy2
      · exact foldl_min_le_init xs y
      · exact foldl_min_le_mem xs x y hy2

theorem listMax_isGreatest (l : List ℚ) (h : l ≠ []) :
    IsGreatest {q | q ∈ l} (listMax l) := by
  match l with
  | [] => exact absurd rfl h
  | x :: xs =>
    constructor
    · rcases foldl_max_mem xs x with heq | hmem
      · simpa [listMax, heq] using List.mem_cons_self x xs
      · simpa [listMax] using List.mem_cons_of_mem x hmem
    · intro y hy
      rcases List.mem_cons.mp hy with rfl | hy2
      · exact foldl_max_le_init xs y
      · exact foldl_max_le_mem xs x y hy2

theorem isLeast_map (L : List Vec3) (g : Vec3 → ℚ) (hL : L ≠ []) :
    IsLeast {q | ∃ c ∈ L, q = g c} (listMin (L.map g)) := by
  have hset : {q | ∃ c ∈ L, q = g c} = {q | q ∈ L.map g} := by
    ext q; simp [List.mem_map, eq_comm]
  rw [hset]
  exact listMin_isLeast (L.map g) (by simpa using hL)

theorem isGreatest_map (L : List Vec3) (g : Vec3 → ℚ) (hL : L ≠ []) :
    IsGreatest {q | ∃ c ∈ L, q = g c} (listMax (L.map g)) := by
  have hset : {q | ∃ c ∈ L, q = g c} = {q | q ∈ L.map g} := by
    ext q; simp [List.mem_map, eq_comm]
  rw [hset]
  exact listMax_isGreatest (L.map g) (by simpa using hL)

/-- Embedding of `list(itertools.product(*zip(lo, hi)))`: the eight
corners of the axis-aligned box with corners `lo` and `hi`, in product
order (the last coordinate varies fastest). -/
def cornerList (lo hi : Vec3) : List Vec3 := do
  let a ← [lo 0, hi 0]
  let b ← [lo 1, hi 1]
  let c ← [lo 2, hi 2]
  pure ![a, b, c]

theorem cornerList_eq (lo hi : Vec3) :
    cornerList lo hi =
      [![lo 0, lo 1, lo 2], ![lo 0, lo 1, hi 2], ![lo 0, hi 1, lo 2],
       ![lo 0, hi 1, hi 2], ![hi 0, lo 1, lo 2], ![hi 0, lo 1, hi 2],
       ![hi 0, hi 1, lo 2], ![hi 0, hi 1, hi 2]] := rfl

/-- Total wrapper for `getTransform`, as used by `__updateBounds`.  The
callback invokes `self.getTransform('mesh', 'display')` with literal
valid space names, so the error branch is unreachable there. -/
def getTransformT (s : TState) (from_ to_ : String) : Mat4 :=
  match getTransform s from_ to_ with
  | .ok x => x
  | .error _ => 1

/-- Embedding of `MeshOpts.__updateBounds`: the eight corners of the
overlay's native bounding box are transformed by
`getTransform('mesh', 'display')` and the per-axis minima and maxima are
stored in `bounds` as `xlo, xhi, ylo, yhi, zlo, zhi`.  The source sorts
each coordinate column before taking `min()`/`max()`; sorting does not
change the minimum or maximum and is not modelled.  The final
`propNotify` re-notification bookkeeping has no effect on the state
modelled here. -/
def updateBounds (s : TState) : TState :=
  let lo := s.overlayBounds.1
  let hi := s.overlayBounds.2
  let xform := getTransformT s "mesh" "display"
  let bbox := (cornerList lo hi).map (affineTransform xform)
  let xs := bbox.map (fun v => v 0)
  let ys := bbox.map (fun v => v 1)
  let zs := bbox.map (fun v => v 2)
  { s with bounds :=
      [listMin xs, listMax xs, listMin ys, listMax ys, listMin zs, listMax zs] }

/-- The property-change events that reach `__updateBounds`: a change of
the `refImage` property (listener `__refImageChanged`), of the
`coordSpace` property (listener `__coordSpaceChanged`), and of the
reference image's `NiftiOpts.transform` property (listener
`__transformChanged`, registered on the reference image's options by
`__refImageChanged`). -/
inductive TEvent where
  | setRefImage (r : Option RefImage)
  | setCoordSpace (cs : String)
  | transformChanged (f : String → String → Mat4)

/-- One step of the reactive graph around `__updateBounds`: the property
is assigned, the registered listener runs, and the listener ends by
calling `__updateBounds`.  `__refImageChanged` also records the new
reference image in `__oldRefImage` (after moving its `transform`
listener).  A `transform` change replaces the reference image's
`NiftiOpts.getTransform` behaviour; with no reference image no
`transform` listener is registered, so the event does not fire. -/
def stepTransform (s : TState) : TEvent → TState
  | .setRefImage r =>
    updateBounds { s with refImage := r, oldRefImage := r }
  | .setCoordSpace cs =>
    updateBounds { s with coordSpace := cs }
  | .transformChanged f =>
    match s.refImage with
    | none => s
    | some ref =>
      updateBounds { s with refImage := some { ref with optsGetTransform := f } }

/-- Whether an event actually triggers a listener in state `s`: a
`transform` change only fires when a reference image is present (the
`transform` listener is only registered then). -/
def eventFires (s : TState) : TEvent → Prop
  | .transformChanged _ => s.refImage.isSome = true
  | _ => True

theorem updateBounds_spec (s : TState) :
    (updateBounds s).bounds.length = 6 ∧
    ∀ i : Fin 3,
      IsLeast
        {q | ∃ c ∈ cornerList s.overlayBounds.1 s.overlayBounds.2,
          q = affineTransform (getTransformT s "mesh" "display") c i}
        ((updateBounds s).bounds.getD (2 * i.val) 0) ∧
      IsGreatest
        {q | ∃ c ∈ cornerList s.overlayBounds.1 s.overlayBounds.2,
          q = affineTransform (getTransformT s "mesh" "display") c i}
        ((updateBounds s).bounds.getD (2 * i.val + 1) 0) := by
  have hL : cornerList s.overlayBounds.1 s.overlayBounds.2 ≠ [] := by
    rw [cornerList_eq]; simp
  refine ⟨rfl, ?_⟩
  intro i
  fin_cases i <;>
    exact ⟨by simpa [updateBounds, List.map_map, Function.comp] using
        isLeast_map _ (fun c =>
          affineTransform (getTransformT s "mesh" "display") c _) hL,
      by simpa [updateBounds, List.map_map, Function.comp] using
        isGreatest_map _ (fun c =>
          affineTransform (getTransformT s "mesh" "display") c _) hL⟩

/-- C2: whenever the `refImage` property, the `coordSpace` property, or
the reference image's `transform` property changes, the `bounds` property
is recomputed and set to the six values `xlo, xhi, ylo, yhi, zlo, zhi`,
where each pair is the per-axis minimum and maximum of the eight corners
of the overlay's native bounding box after transformation by
`getTransform('mesh', 'display')`. -/
theorem bounds_updated_on_change (s : TState) (e : TEvent)
    (h : eventFires s e) :
    (stepTransform s e).bounds.length = 6 ∧
    ∀ i : Fin 3,
      IsLeast
        {q | ∃ c ∈ cornerList (stepTransform s e).overlayBounds.1
            (stepTransform s e).overlayBounds.2,
          q = affineTransform
            (getTransformT (stepTransform s e) "mesh" "display") c i}
        ((stepTransform s e).bounds.getD (2 * i.val) 0) ∧
      IsGreatest
        {q | ∃ c ∈ cornerList (stepTransform s e).overlayBounds.1
            (stepTransform s e).overlayBounds.2,
          q = affineTransform
            (getTransformT (stepTransform s e) "mesh" "display") c i}
        ((stepTransform s e).bounds.getD (2 * i.val + 1) 0) := by
  cases e with
  | setRefImage r => exact updateBounds_spec _
  | setCoordSpace cs => exact updateBounds_spec _
  | transformChanged f =>
    cases hs : s.refImage with
    | none => simp [eventFires, hs] at h
    | some ref =>
      simpa [stepTransform, hs] using
        updateBounds_spec { s with refImage := some { ref with optsGetTransform := f } }

theorem bounds_updated_on_change_witness :
    (stepTransform tstateTorigEx (.setCoordSpace "affine")).bounds.length = 6 ∧
    ∀ i : Fin 3,
      IsLeast
        {q | ∃ c ∈ cornerList
            (stepTransform tstateTorigEx (.setCoordSpace "affine")).overlayBounds.1
            (stepTransform tstateTorigEx (.setCoordSpace "affine")).overlayBounds.2,
          q = affineTransform
            (getTransformT (stepTransform tstateTorigEx (.setCoordSpace "affine"))
              "mesh" "display") c i}
        ((stepTransform tstateTorigEx (.setCoordSpace "affine")).bounds.getD
          (2 * i.val) 0) ∧
      IsGreatest
        {q | ∃ c ∈ cornerList
            (stepTransform tstateTorigEx (.setCoordSpace "affine")).overlayBounds.1
            (stepTransform tstateTorigEx (.setCoordSpace "affine")).overlayBounds.2,
          q = affineTransform
            (getTransformT (stepTransform tstateTorigEx (.setCoordSpace "affine"))
              "mesh" "display") c i}
        ((stepTransform tstateTorigEx (.setCoordSpace "affine")).bounds.getD
          (2 * i.val + 1) 0) :=
  bounds_updated_on_change tstateTorigEx (.setCoordSpace "affine") trivial

/-- An overlay in the overlay list, as seen by `__overlayListChanged`:
an identity plus whether it is an `fsl.data.image.Nifti` instance. -/
structure Ovl where
  oid : Nat
  isNifti : Bool
deriving DecidableEq

/-- The state of a `MeshOpts` instance needed by `__overlayListChanged`:
its own overlay, the current `refImage` value and the `refImage` property
choice list, the display context's ordered overlays, whether the
instance's `overlays` listener on the overlay list is registered, and the
overlays on whose `Display` a `name` listener is registered. -/
structure OListState where
  overlay : Ovl
  refImage : Option Ovl
  refImageChoices : List (Option Ovl)
  orderedOverlays : List Ovl
  hasOverlaysListener : Bool
  nameListeners : List Nat

/-- Embedding of `MeshOpts.__overlayListChanged`.  If this instance's
overlay is no longer among the display context's ordered overlays, the
`overlays` listener is removed and the callback returns early.  Otherwise
the candidate reference images are `None` followed by the `Nifti`
overlays in list order (a `name` listener is registered on each), the
current `refImage` value is kept when it is among the candidates and
reset to `None` otherwise, and the candidates become the `refImage`
property choices. -/
def overlayListChanged (s : OListState) : OListState :=
  let imgVal := s.refImage
  let overlays := s.orderedOverlays
  if s.overlay ∉ overlays then
    { s with hasOverlaysListener := false }
  else
    let niftis := overlays.filter (fun o : Ovl => o.isNifti)
    let imgOptions : List (Option Ovl) := none :: niftis.map some
    let s1 := { s with nameListeners :=
      s.nameListeners ++
        ((niftis.map (fun o : Ovl => o.oid)).filter (fun i => i ∉ s.nameListeners)) }
    let s2 :=
      if imgVal ∈ imgOptions then { s1 with refImage := imgVal }
      else { s1 with refImage := none }
    { s2 with refImageChoices := imgOptions }

/-- C4: after an overlay-list change while this instance's overlay is
still in the ordered overlays, the `refImage` choices are exactly `None`
followed by the `Nifti` overlays of the ordered overlay list in order;
`refImage` keeps its value when that value is among these options and is
reset to `None` otherwise. -/
theorem overlayListChanged_choices (s : OListState)
    (h : s.overlay ∈ s.orderedOverlays) :
    (overlayListChanged s).refImageChoices =
      none :: (s.orderedOverlays.filter (fun o : Ovl => o.isNifti)).map some ∧
    (s.refImage ∈ (overlayListChanged s).refImageChoices →
      (overlayListChanged s).refImage = s.refImage) ∧
    (s.refImage ∉ (overlayListChanged s).refImageChoices →
      (overlayListChanged s).refImage = none) := by
  refine ⟨?_, ?_, ?_⟩
  · simp [overlayListChanged, h]
  · intro hmem
    simp only [overlayListChanged, h, not_true_eq_false, if_false] at hmem ⊢
    simp [hmem]
  · intro hmem
    simp only [overlayListChanged, h, not_true_eq_false, if_false] at hmem ⊢
    simp [hmem]

/-- A concrete `Nifti` overlay, used by witnesses. -/
def niftiEx : Ovl := { oid := 1, isNifti := true }

/-- A concrete mesh overlay, used by witnesses. -/
def meshOvlEx : Ovl := { oid := 2, isNifti := false }

/-- A concrete `OListState` whose own overlay is still in the ordered
overlay list, used by witnesses. -/
def olistEx : OListState :=
  { overlay := meshOvlEx
    refImage := some niftiEx
    refImageChoices := [none, some niftiEx]
    orderedOverlays := [niftiEx, meshOvlEx]
    hasOverlaysListener := true
    nameListeners := [] }

theorem overlayListChanged_choices_witness :
    (overlayListChanged olistEx).refImageChoices =
      none :: (olistEx.orderedOverlays.filter (fun o : Ovl => o.isNifti)).map some ∧
    (olistEx.refImage ∈ (overlayListChanged olistEx).refImageChoices →
      (overlayListChanged olistEx).refImage = olistEx.refImage) ∧
    (olistEx.refImage ∉ (overlayListChanged olistEx).refImageChoices →
      (overlayListChanged olistEx).refImage = none) :=
  overlayListChanged_choices olistEx (by decide)

/-- C7: when this instance's overlay is no longer in the ordered
overlays, the overlay-list callback removes the `overlays` listener and
returns early, leaving the `refImage` value and the `refImage` choice
list unchanged. -/
theorem overlayListChanged_removed (s : OListState)
    (h : s.overlay ∉ s.orderedOverlays) :
    (overlayListChanged s).hasOverlaysListener = false ∧
    (overlayListChanged s).refImage = s.refImage ∧
    (overlayListChanged s).refImageChoices = s.refImageChoices := by
  refine ⟨?_, ?_, ?_⟩ <;> simp [overlayListChanged, h]

/-- A concrete `OListState` whose own overlay has been removed from the
ordered overlay list, used by witnesses. -/
def olistRemovedEx : OListState :=
  { overlay := meshOvlEx
    refImage := some niftiEx
    refImageChoices := [none, some niftiEx]
    orderedOverlays := [niftiEx]
    hasOverlaysListener := true
    nameListeners := [] }

theorem overlayListChanged_removed_witness :
    (overlayListChanged olistRemovedEx).hasOverlaysListener = false ∧
    (overlayListChanged olistRemovedEx).refImage = olistRemovedEx.refImage ∧
    (overlayListChanged olistRemovedEx).refImageChoices =
      olistRemovedEx.refImageChoices :=
  overlayListChanged_removed olistRemovedEx (by decide)

/-- A numpy array of per-vertex data: its shape together with its values
in a flat list.  Rational values model the floating-point data exactly at
the level used by the checked properties. -/
structure VArray where
  shape : List Nat
  data : List ℚ
deriving DecidableEq

/-- The `Mesh` overlay collaborator, as used by `__vdataChanged` and
`addVertexData`: its named vertex data sets (`Mesh.vertexDataSets` /
`Mesh.getVertexData`) and its file loader (`Mesh.loadVertexData`).  The
loader is external; a `none` result models any exception raised while
loading. -/
structure MeshOverlay where
  vdsets : List (String × VArray)
  loadVertexData : String → Option VArray

/-- The keys returned by `Mesh.vertexDataSets()`. -/
def vertexDataSetKeys (m : MeshOverlay) : List String := m.vdsets.map Prod.fst

/-- The raw array obtained inside the try-block of `__vdataChanged`:
already-cached sets are read with `Mesh.getVertexData`, otherwise
`Mesh.loadVertexData` is called.  `none` models an exception. -/
def rawLoad (m : MeshOverlay) (f : String) : Option VArray :=
  if f ∈ vertexDataSetKeys m then m.vdsets.lookup f else m.loadVertexData f

/-- The outcome of the try/except block of `__vdataChanged`: the data (a
1-D array is reshaped to one column) and its range
`(np.nanmin(vdata), np.nanmax(vdata))`.  On rational arrays nanmin and
nanmax are plain minimum and maximum (`listMin` / `listMax`); `np.nanmin`
raises on an empty array, which the except-branch turns into
`(none, none)`, as it does for any loader exception.
`dutils.makeWriteable` does not change the value and is not modelled. -/
def loadVData (m : MeshOverlay) (vdfile : Option String) :
    Option VArray × Option (ℚ × ℚ) :=
  match vdfile with
  | none => (none, none)
  | some f =>
    match rawLoad m f with
    | none => (none, none)
    | some arr =>
      if arr.data = [] then (none, none)
      else
        let vdataRange := (listMin arr.data, listMax arr.data)
        let arr :=
          if arr.shape.length = 1 then { arr with shape := [arr.data.length, 1] }
          else arr
        (some arr, some vdataRange)

/-- The state of a `MeshOpts` instance needed by the vertex-data
machinery: the overlay, the `vertexData` / `modulateData` property
values, the private `__vdata` and `__vdataRange` dictionaries (slot
`vertex` and slot `modulate` as separate fields), the `vertexDataIndex`
property with its `maxval` attribute, and the choice lists of the
`vertexData` and `modulateData` properties. -/
structure VDState where
  mesh : MeshOverlay
  vertexData : Option String
  modulateData : Option String
  vdataVertex : Option VArray
  vdataModulate : Option VArray
  vrangeVertex : Option (ℚ × ℚ)
  vrangeModulate : Option (ℚ × ℚ)
  vertexDataIndex : Int
  vertexDataIndexMax : Int
  vdChoices : List (Option String)
  mdChoices : List (Option String)

/-- The property whose change triggered `__vdataChanged` (the `name`
callback argument; `vertexData` selects slot `vertex` and `modulateData`
selects slot `modulate`; any other name raises `RuntimeError` and cannot
occur, since the callback is only registered for these two). -/
inductive VDProp where
  | vertexData
  | modulateData
deriving DecidableEq

/-- Embedding of `MeshOpts.__vdataChanged`.  The data is loaded (with
exceptions absorbed: the function is total, so nothing propagates to the
caller of the property assignment) and stored with its range in the slot
named by `name`; for the `vertex` slot, `vertexDataIndex` is reset to `0`
and its `maxval` attribute to `vdata.shape[1] - 1` (with `npoints = 1`
when nothing is stored).  `vdata.shape[1]` is modelled with
`List.getD 1 0`.  The final `updateDataRange` call only touches
`ColourMapOpts` state outside this model. -/
def vdataChanged (s : VDState) (value : Option String) (name : VDProp) :
    VDState :=
  let res := loadVData s.mesh value
  match name with
  | .vertexData =>
    let npoints : Int :=
      match res.1 with
      | some a => (a.shape.getD 1 0 : Int)
      | none => 1
    { s with vdataVertex := res.1, vrangeVertex := res.2,
             vertexDataIndex := 0, vertexDataIndexMax := npoints - 1 }
  | .modulateData =>
    { s with vdataModulate := res.1, vrangeModulate := res.2 }

/-- Assignment to the `vertexData` property: the value changes and the
registered `__vdataChanged` listener runs. -/
def setVertexData (s : VDState) (v : Option String) : VDState :=
  vdataChanged { s with vertexData := v } v .vertexData

/-- Assignment to the `modulateData` property: the value changes and the
registered `__vdataChanged` listener runs. -/
def setModulateData (s : VDState) (v : Option String) : VDState :=
  vdataChanged { s with modulateData := v } v .modulateData

/-- Embedding of `MeshOpts.getDataRange`. -/
def getDataRange (s : VDState) : ℚ × ℚ :=
  match s.vrangeVertex with
  | none => (0, 1)
  | some r => r

/-- Embedding of `MeshOpts.getModulateRange`. -/
def getModulateRange (s : VDState) : Option (ℚ × ℚ) := s.vrangeModulate

/-- Embedding of `MeshOpts.getVertexData` (the `vdtype` argument selects
the `vertex` or `modulate` slot). -/
def getVertexData (s : VDState) (vdtype : VDProp) : Option VArray :=
  match vdtype with
  | .vertexData => s.vdataVertex
  | .modulateData => s.vdataModulate

/-- Embedding of `MeshOpts.vertexDataLen`. -/
def vertexDataLen (s : VDState) : Nat :=
  match s.vdataVertex with
  | none => 0
  | some vdata =>
    if vdata.shape.length = 1 then 1 else vdata.shape.getD 1 0

theorem loadVData_raw_none (m : MeshOverlay) (f : String)
    (h : rawLoad m f = none) : loadVData m (some f) = (none, none) := by
  simp [loadVData, h]

theorem loadVData_raw_some_empty (m : MeshOverlay) (f : String) (arr : VArray)
    (h : rawLoad m f = some arr) (he : arr.data = []) :
    loadVData m (some f) = (none, none) := by
  simp [loadVData, h, he]

theorem loadVData_raw_some (m : MeshOverlay) (f : String) (arr : VArray)
    (h : rawLoad m f = some arr) (he : arr.data ≠ []) :
    loadVData m (some f) =
      (some (if arr.shape.length = 1 then
          { arr with shape := [arr.data.length, 1] } else arr),
       some (listMin arr.data, listMax arr.data)) := by
  simp [loadVData, h, he]

theorem loadVData_fst_none (m : MeshOverlay) (v : Option String)
    (h : (loadVData m v).1 = none) : loadVData m v = (none, none) := by
  cases v with
  | none => rfl
  | some f =>
    cases hr : rawLoad m f with
    | none => exact loadVData_raw_none m f hr
    | some arr =>
      by_cases he : arr.data = []
      · exact loadVData_raw_some_empty m f arr hr he
      · rw [loadVData_raw_some m f arr hr he] at h
        exact absurd h (by simp)

theorem loadVData_shape (m : MeshOverlay) (v : Option String) (arr : VArray)
    (h : (loadVData m v).1 = some arr) : arr.shape.length ≠ 1 := by
  cases v with
  | none => exact absurd h (by simp [loadVData])
  | some f =>
    cases hr : rawLoad m f with
    | none =>
      rw [loadVData_raw_none m f hr] at h
      exact absurd h (by simp)
    | some arr0 =>
      by_cases he : arr0.data = []
      · rw [loadVData_raw_some_empty m f arr0 hr he] at h
        exact absurd h (by simp)
      · rw [loadVData_raw_some m f arr0 hr he] at h
        simp only [Option.some_inj] at h
        by_cases hs : arr0.shape.length = 1
        · rw [if_pos hs] at h
          rw [← h]
          simp
        · rw [if_neg hs] at h
          rw [← h]
          exact hs

/-- C5: when `vertexData` is set to a file whose data loads successfully,
the stored vertex-data range is `(nanmin(data), nanmax(data))` of the
loaded array and `getDataRange` returns exactly that pair; when no
`vertexData` is selected, or its load failed, `getDataRange` returns
`(0, 1)`. -/
theorem getDataRange_spec (s : VDState) (f : String) (arr : VArray) :
    (rawLoad s.mesh f = some arr → arr.data ≠ [] →
      (setVertexData s (some f)).vrangeVertex =
        some (listMin arr.data, listMax arr.data) ∧
      getDataRange (setVertexData s (some f)) =
        (listMin arr.data, listMax arr.data)) ∧
    getDataRange (setVertexData s none) = (0, 1) ∧
    ((loadVData s.mesh (some f)).2 = none →
      getDataRange (setVertexData s (some f)) = (0, 1)) := by
  refine ⟨?_, ?_, ?_⟩
  · intro hraw hne
    constructor <;>
      simp [setVertexData, vdataChanged, loadVData, hraw, hne, getDataRange]
  · simp [setVertexData, vdataChanged, loadVData, getDataRange]
  · intro h2
    simp only [setVertexData, vdataChanged, getDataRange]
    simp only [show ({ s with vertexData := some f } : VDState).mesh = s.mesh
      from rfl, h2]

/-- A concrete two-point vertex data array, used by witnesses. -/
def varrEx : VArray := { shape := [2], data := [3, 5] }

/-- A concrete mesh overlay with one cached vertex data set and a loader
that always fails, used by witnesses. -/
def meshEx : MeshOverlay :=
  { vdsets := [("a", varrEx)], loadVertexData := fun _ => none }

/-- A concrete `VDState`, used by witnesses. -/
def vdstateEx : VDState :=
  { mesh := meshEx
    vertexData := none
    modulateData := none
    vdataVertex := none
    vdataModulate := none
    vrangeVertex := none
    vrangeModulate := none
    vertexDataIndex := 0
    vertexDataIndexMax := 0
    vdChoices := [none]
    mdChoices := [none] }

theorem getDataRange_spec_witness :
    (setVertexData vdstateEx (some "a")).vrangeVertex =
      some (listMin varrEx.data, listMax varrEx.data) ∧
    getDataRange (setVertexData vdstateEx (some "a")) =
      (listMin varrEx.data, listMax varrEx.data) :=
  (getDataRange_spec vdstateEx "a" varrEx).1 (by decide) (by decide)

/-- C6: if loading the file named by `vertexData` or `modulateData`
raises any exception, the exception does not propagate to the caller of
the property assignment (the embedded step functions are total); the
stored data and range for the changed slot are both set to `None`, so
`getVertexData` returns `None` for that slot and `getModulateRange`
returns `None`. -/
theorem vdata_load_failure (s : VDState) (f : String)
    (hfail : (loadVData s.mesh (some f)).1 = none) :
    (setVertexData s (some f)).vdataVertex = none ∧
    (setVertexData s (some f)).vrangeVertex = none ∧
    getVertexData (setVertexData s (some f)) .vertexData = none ∧
    (setModulateData s (some f)).vdataModulate = none ∧
    (setModulateData s (some f)).vrangeModulate = none ∧
    getVertexData (setModulateData s (some f)) .modulateData = none ∧
    getModulateRange (setModulateData s (some f)) = none := by
  have hall := loadVData_fst_none s.mesh (some f) hfail
  refine ⟨?_, ?_, ?_, ?_, ?_, ?_, ?_⟩ <;>
    simp [setVertexData, setModulateData, vdataChanged, getVertexData,
      getModulateRange, hall]

theorem vdata_load_failure_witness :
    (setVertexData vdstateEx (some "b")).vdataVertex = none ∧
    (setVertexData vdstateEx (some "b")).vrangeVertex = none ∧
    getVertexData (setVertexData vdstateEx (some "b")) .vertexData = none ∧
    (setModulateData vdstateEx (some "b")).vdataModulate = none ∧
    (setModulateData vdstateEx (some "b")).vrangeModulate = none ∧
    getVertexData (setModulateData vdstateEx (some "b")) .modulateData = none ∧
    getModulateRange (setModulateData vdstateEx (some "b")) = none :=
  vdata_load_failure vdstateEx "b" (by decide)

/-- C10: after every change of `vertexData`, `vertexDataIndex` is `0` and
its `maxval` attribute is `vertexDataLen() - 1` when data was stored
(`0` when no data is stored because `vertexData` is `None` or loading
failed); changes to `modulateData` leave `vertexDataIndex` and its
`maxval` unchanged. -/
theorem vertexDataIndex_reset (s : VDState) (v : Option String) :
    (setVertexData s v).vertexDataIndex = 0 ∧
    ((setVertexData s v).vdataVertex ≠ none →
      (setVertexData s v).vertexDataIndexMax =
        (vertexDataLen (setVertexData s v) : Int) - 1) ∧
    ((setVertexData s v).vdataVertex = none →
      (setVertexData s v).vertexDataIndexMax = 0) ∧
    ∀ w : Option String,
      (setModulateData s w).vertexDataIndex = s.vertexDataIndex ∧
      (setModulateData s w).vertexDataIndexMax = s.vertexDataIndexMax := by
  refine ⟨?_, ?_, ?_, ?_⟩
  · simp [setVertexData, vdataChanged]
  · intro hne
    cases hres : (loadVData s.mesh v).1 with
    | none =>
      exact absurd (by simp [setVertexData, vdataChanged, hres]) hne
    | some arr =>
      have hsh := loadVData_shape s.mesh v arr (by
        simpa [setVertexData] using hres)
      simp [setVertexData, vdataChanged, vertexDataLen, hres, hsh]
  · intro hnone
    cases hres : (loadVData s.mesh v).1 with
    | none => simp [setVertexData, vdataChanged, hres]
    | some arr =>
      rw [show (setVertexData s v).vdataVertex = (loadVData s.mesh v).1 from rfl,
        hres] at hnone
      exact absurd hnone (by simp)
  · intro w
    constructor <;> simp [setModulateData, vdataChanged]

theorem vertexDataIndex_reset_witness :
    (setVertexData vdstateEx (some "a")).vertexDataIndex = 0 ∧
    (setVertexData vdstateEx (some "a")).vertexDataIndexMax =
      (vertexDataLen (setVertexData vdstateEx (some "a")) : Int) - 1 ∧
    (setModulateData vdstateEx (some "b")).vertexDataIndex =
      vdstateEx.vertexDataIndex ∧
    (setModulateData vdstateEx (some "b")).vertexDataIndexMax =
      vdstateEx.vertexDataIndexMax :=
  ⟨(vertexDataIndex_reset vdstateEx (some "a")).1,
   (vertexDataIndex_reset vdstateEx (some "a")).2.1 (by decide),
   ((vertexDataIndex_reset vdstateEx (some "a")).2.2.2 (some "b")).1,
   ((vertexDataIndex_reset vdstateEx (some "a")).2.2.2 (some "b")).2⟩

/-- Decimal digit characters of a natural number, most significant digit
first: the digits Python's `str` produces for a nonnegative `int`, as
used by the format string in `MeshOpts.addVertexData`. -/
def decDigits (n : Nat) : List Char :=
  if n < 10 then [Nat.digitChar n]
  else decDigits (n / 10) ++ [Nat.digitChar (n % 10)]
termination_by n
decreasing_by
  simp_wf
  omega

/-- Decimal string of a natural number (Python `str` on a nonnegative
`int`). -/
def natDecimal (n : Nat) : String := String.mk (decDigits n)

theorem decDigits_ne_nil (n : Nat) : decDigits n ≠ [] := by
  rw [decDigits]
  by_cases h : n < 10 <;> simp [h]

theorem digitChar_inj10 (m n : Nat) (hm : m < 10) (hn : n < 10)
    (h : Nat.digitChar m = Nat.digitChar n) : m = n := by
  interval_cases m <;> interval_cases n <;> revert h <;> decide

theorem decDigits_small (n : Nat) (h : n < 10) :
    decDigits n = [Nat.digitChar n] := by
  rw [decDigits]
  rw [if_pos h]

theorem decDigits_big (n : Nat) (h : ¬n < 10) :
    decDigits n = decDigits (n / 10) ++ [Nat.digitChar (n % 10)] := by
  rw [decDigits]
  rw [if_neg h]

theorem decDigits_inj (m : Nat) : ∀ n, decDigits m = decDigits n → m = n := by
  induction m using Nat.strong_induction_on with
  | _ m ih =>
    intro n h
    by_cases hm : m < 10 <;> by_cases hn : n < 10
    · rw [decDigits_small m hm, decDigits_small n hn] at h
      exact digitChar_inj10 m n hm hn (by simpa using h)
    · rw [decDigits_small m hm, decDigits_big n hn] at h
      have hlen := congrArg List.length h
      simp [List.length_append] at hlen
      exact absurd hlen (decDigits_ne_nil (n / 10))
    · rw [decDigits_big m hm, decDigits_small n hn] at h
      have hlen := congrArg List.length h
      simp [List.length_append] at hlen
      exact absurd hlen (decDigits_ne_nil (m / 10))
    · rw [decDigits_big m hm, decDigits_big n hn] at h
      obtain ⟨h1, h2⟩ := List.append_inj' h (by simp)
      have hd : m % 10 = n % 10 :=
        digitChar_inj10 _ _ (Nat.mod_lt _ (by omega)) (Nat.mod_lt _ (by omega))
          (by simpa using h2)
      have hq : m / 10 = n / 10 :=
        ih (m / 10) (Nat.div_lt_self (by omega) (by omega)) (n / 10) h1
      omega

theorem natDecimal_inj (m n : Nat) (h : natDecimal m = natDecimal n) :
    m = n :=
  decDigits_inj m n (congrArg String.data h)

theorem natDecimal_length_pos (n : Nat) : 0 < (natDecimal n).length := by
  cases hd : decDigits n with
  | nil => exact absurd hd (decDigits_ne_nil n)
  | cons c cs => simp [natDecimal, String.length, hd]

/-- The replacement key built by the format string in
`MeshOpts.addVertexData`: the original key followed by the counter in
square brackets. -/
def decorated (origKey : String) (n : Nat) : String :=
  origKey ++ " [" ++ natDecimal n ++ "]"

theorem decorated_inj (k : String) (i j : Nat)
    (h : decorated k i = decorated k j) : i = j := by
  have hdata := congrArg String.data h
  simp only [decorated, String.data_append, List.append_assoc] at hdata
  have h1 := List.append_cancel_left hdata
  have h2 := List.append_cancel_left h1
  obtain ⟨h3, _⟩ := List.append_inj' h2 rfl
  exact natDecimal_inj i j (by
    apply congrArg String.mk h3)

theorem decorated_ne (k : String) (n : Nat) : decorated k n ≠ k := by
  intro h
  have hlen := congrArg String.length h
  simp [decorated, String.length_append] at hlen
  have := natDecimal_length_pos n
  omega

theorem exists_fresh (sets : List String) (k : String) :
    ∃ n, 1 ≤ n ∧ n ≤ sets.length + 1 ∧ decorated k n ∉ sets := by
  by_contra hcon
  push_neg at hcon
  have hnodup :
      ((List.range (sets.length + 1)).map
        (fun i => decorated k (i + 1))).Nodup := by
    refine List.Nodup.map ?_ (List.nodup_range _)
    intro a b hab
    have h2 := decorated_inj k (a + 1) (b + 1) hab
    omega
  have hsub :
      ((List.range (sets.length + 1)).map
        (fun i => decorated k (i + 1))).toFinset ⊆ sets.toFinset := by
    intro x hx
    rw [List.mem_toFinset] at hx ⊢
    rw [List.mem_map] at hx
    obtain ⟨i, hi, rfl⟩ := hx
    rw [List.mem_range] at hi
    exact hcon (i + 1) (by omega) (by omega)
  have hcard := Finset.card_le_card hsub
  rw [List.toFinset_card_of_nodup hnodup] at hcard
  have hle := List.toFinset_card_le sets
  simp [List.length_map, List.length_range] at hcard
  omega

/-- The while-loop of `MeshOpts.addVertexData`: starting from `key` and
counter `count`, candidates `key`, decorated `count`, decorated
`count + 1`, ... are tried until one is not in `sets`.  The recursion is
made structural by an explicit iteration bound; the caller passes
`sets.length + 2`, within which a fresh candidate provably exists
(`exists_fresh`), so the bound is never exhausted. -/
def addVertexDataGo (sets : List String) (origKey key : String)
    (count fuel : Nat) : String :=
  match fuel with
  | 0 => key
  | fuel + 1 =>
    if key ∈ sets then
      addVertexDataGo sets origKey (decorated origKey count) (count + 1) fuel
    else key

theorem addVertexDataGo_notmem (sets : List String) (k key : String)
    (count fuel : Nat) (h : key ∉ sets) :
    addVertexDataGo sets k key count fuel = key := by
  cases fuel with
  | zero => rfl
  | succ fuel => simp [addVertexDataGo, h]

theorem addVertexDataGo_spec (sets : List String) (k : String) :
    ∀ (fuel count : Nat) (key : String),
      (∃ n, count ≤ n ∧ n < count + fuel ∧ decorated k n ∉ sets) →
      key ∈ sets →
      ∃ m, count ≤ m ∧
        addVertexDataGo sets k key count fuel = decorated k m ∧
        decorated k m ∉ sets ∧
        ∀ j, count ≤ j → j < m → decorated k j ∈ sets := by
  intro fuel
  induction fuel with
  | zero =>
    intro count key h hk
    obtain ⟨n, h1, h2, _⟩ := h
    omega
  | succ fuel ih =>
    intro count key h hk
    simp only [addVertexDataGo, if_pos hk]
    by_cases hd : decorated k count ∈ sets
    · have h2 : ∃ n, count + 1 ≤ n ∧ n < count + 1 + fuel ∧
          decorated k n ∉ sets := by
        obtain ⟨n, hn1, hn2, hn3⟩ := h
        rcases Nat.eq_or_lt_of_le hn1 with heq | hlt
        · rw [← heq] at hn3
          exact absurd hd hn3
        · exact ⟨n, hlt, by omega, hn3⟩
      obtain ⟨m, hm1, hm2, hm3, hm4⟩ := ih (count + 1) (decorated k count) h2 hd
      refine ⟨m, by omega, hm2, hm3, ?_⟩
      intro j hj1 hj2
      rcases Nat.eq_or_lt_of_le hj1 with heq | hlt
      · rw [← heq]
        exact hd
      · exact hm4 j hlt hj2
    · refine ⟨count, le_refl count, ?_, hd, ?_⟩
      · exact addVertexDataGo_notmem sets k (decorated k count) (count + 1)
          fuel hd
      · intro j hj1 hj2
        omega

/-- Embedding of `Mesh.addVertexData` on the overlay: the data is stored
under the key (a dict assignment: replace when the key is present,
append otherwise). -/
def meshAddVertexData (m : MeshOverlay) (key : String) (data : VArray) :
    MeshOverlay :=
  if key ∈ vertexDataSetKeys m then
    { m with vdsets := m.vdsets.map (fun p => if p.1 = key then (key, data) else p) }
  else
    { m with vdsets := m.vdsets ++ [(key, data)] }

/-- Embedding of `MeshOpts.addVertexDataOptions`: the paths not already
among the `vertexData` choices are appended, and the `modulateData`
choices are set to the same list. -/
def addVertexDataOptions (s : VDState) (paths : List String) : VDState :=
  let merged := s.vdChoices ++
    ((paths.map some).filter (fun p => p ∉ s.vdChoices))
  { s with vdChoices := merged, mdChoices := merged }

/-- Embedding of `MeshOpts.addVertexData`: a key not colliding with the
overlay's existing vertex data sets is generated (`origKey`, else
decorated with the first free positive counter), the data is stored on
the overlay under it, it is added to the `vertexData` choices, and it is
returned. -/
def addVertexData (s : VDState) (key : String) (data : VArray) :
    VDState × String :=
  let sets := vertexDataSetKeys s.mesh
  let key2 := addVertexDataGo sets key key 1 (sets.length + 2)
  let s1 := { s with mesh := meshAddVertexData s.mesh key2 data }
  let s2 := addVertexDataOptions s1 [key2]
  (s2, key2)

/-- C9: `addVertexData` stores the data under, and returns, a key that
was not among the overlay's vertex data sets before the call: the
original key when it was fresh, otherwise the original key decorated
with the smallest positive counter that makes it fresh; the returned
key is also among the `vertexData` choices afterwards. -/
theorem addVertexData_spec (s : VDState) (key : String) (data : VArray) :
    (addVertexData s key data).2 ∉ vertexDataSetKeys s.mesh ∧
    (key ∉ vertexDataSetKeys s.mesh → (addVertexData s key data).2 = key) ∧
    (key ∈ vertexDataSetKeys s.mesh →
      ∃ n, 1 ≤ n ∧ (addVertexData s key data).2 = decorated key n ∧
        decorated key n ∉ vertexDataSetKeys s.mesh ∧
        ∀ j, 1 ≤ j → j < n → decorated key j ∈ vertexDataSetKeys s.mesh) ∧
    (addVertexData s key data).1.mesh.vdsets =
      s.mesh.vdsets ++ [((addVertexData s key data).2, data)] ∧
    some (addVertexData s key data).2 ∈ (addVertexData s key data).1.vdChoices := by
  have hex : ∃ n, 1 ≤ n ∧
      n < 1 + (vertexDataSetKeys s.mesh).length + 2 ∧
      decorated key n ∉ vertexDataSetKeys s.mesh := by
    obtain ⟨n, h1, h2, h3⟩ := exists_fresh (vertexDataSetKeys s.mesh) key
    exact ⟨n, h1, by omega, h3⟩
  have hkey2 : (addVertexData s key data).2 =
      addVertexDataGo (vertexDataSetKeys s.mesh) key key 1
        ((vertexDataSetKeys s.mesh).length + 2) := rfl
  have hfresh : (addVertexData s key data).2 ∉ vertexDataSetKeys s.mesh := by
    rw [hkey2]
    by_cases hk : key ∈ vertexDataSetKeys s.mesh
    · obtain ⟨m, _, hm2, hm3, _⟩ :=
        addVertexDataGo_spec (vertexDataSetKeys s.mesh) key
          ((vertexDataSetKeys s.mesh).length + 2) 1 key (by
            obtain ⟨n, h1, h2, h3⟩ := hex
            exact ⟨n, h1, by omega, h3⟩) hk
      rw [hm2]
      exact hm3
    · rw [addVertexDataGo_notmem _ _ _ _ _ hk]
      exact hk
  refine ⟨hfresh, ?_, ?_, ?_, ?_⟩
  · intro hk
    rw [hkey2]
    exact addVertexDataGo_notmem _ _ _ _ _ hk
  · intro hk
    obtain ⟨m, hm1, hm2, hm3, hm4⟩ :=
      addVertexDataGo_spec (vertexDataSetKeys s.mesh) key
        ((vertexDataSetKeys s.mesh).length + 2) 1 key (by
          obtain ⟨n, h1, h2, h3⟩ := hex
          exact ⟨n, h1, by omega, h3⟩) hk
    exact ⟨m, hm1, hkey2.trans hm2, hm3, hm4⟩
  · show (meshAddVertexData s.mesh (addVertexData s key data).2 data).vdsets = _
    rw [meshAddVertexData, if_neg hfresh]
  · show some (addVertexData s key data).2 ∈
      s.vdChoices ++ (([(addVertexData s key data).2].map some).filter
        (fun p => p ∉ s.vdChoices))
    by_cases hc : some (addVertexData s key data).2 ∈ s.vdChoices
    · exact List.mem_append_left _ hc
    · refine List.mem_append_right _ ?_
      simp [List.filter, hc]

/-- A concrete fresh key result, used by witnesses. -/
theorem addVertexData_spec_witness :
    (addVertexData vdstateEx "z" varrEx).2 ∉ vertexDataSetKeys vdstateEx.mesh ∧
    (addVertexData vdstateEx "z" varrEx).2 = "z" ∧
    (addVertexData vdstateEx "z" varrEx).1.mesh.vdsets =
      vdstateEx.mesh.vdsets ++ [((addVertexData vdstateEx "z" varrEx).2, varrEx)] ∧
    some (addVertexData vdstateEx "z" varrEx).2 ∈
      (addVertexData vdstateEx "z" varrEx).1.vdChoices :=
  ⟨(addVertexData_spec vdstateEx "z" varrEx).1,
   (addVertexData_spec vdstateEx "z" varrEx).2.1 (by decide),
   (addVertexData_spec vdstateEx "z" varrEx).2.2.2.1,
   (addVertexData_spec vdstateEx "z" varrEx).2.2.2.2⟩

end MeshOptsVerify
